import Mathlib

/-!
A shallow embedding of the multi-room TCP chat server
(`chat_room.cpp`, `connection_manager.cpp`, `message_store.cpp`, `server.cpp`)
together with proofs about room membership, rate limiting, muting, the
message store and the command dispatcher.

Maps (`std::unordered_map`) are embedded as total functions into `Option`;
`std::unordered_set<int>` is embedded as a duplicate-free-by-construction
`List Int` with guarded insertion; steady-clock instants are integers in
milliseconds.  Side-effecting C++ member functions become pure functions
returning a pair of result and updated state.
-/

namespace ChatServer

/-- Pointwise update of a function-embedded map (covers both
`map[k] = v` for `v := some room` and `map.erase(k)` for `v := none`). -/
def setKey {κ α : Type} [DecidableEq κ] (f : κ → α) (k : κ) (v : α) : κ → α :=
  fun k' => if k' = k then v else f k'

theorem setKey_same {κ α : Type} [DecidableEq κ] (f : κ → α) (k : κ) (v : α) :
    setKey f k v k = v := by
  simp [setKey]

theorem setKey_ne {κ α : Type} [DecidableEq κ] (f : κ → α) (k k' : κ) (v : α)
    (h : k' ≠ k) : setKey f k v k' = f k' := by
  simp [setKey, h]

/-- Embeds `std::unordered_set<int>::insert`: add the element unless present. -/
def insertMember (members : List Int) (c : Int) : List Int :=
  if c ∈ members then members else c :: members

/-- Embeds `std::unordered_set<int>::erase`. -/
def eraseMember (members : List Int) (c : Int) : List Int :=
  members.filter (fun m => m ≠ c)

theorem mem_insertMember {members : List Int} {c a : Int} :
    a ∈ insertMember members c ↔ a = c ∨ a ∈ members := by
  unfold insertMember
  split
  · constructor
    · exact fun h => Or.inr h
    · rintro (rfl | h)
      · assumption
      · assumption
  · simp [List.mem_cons]

theorem mem_eraseMember {members : List Int} {c a : Int} :
    a ∈ eraseMember members c ↔ a ∈ members ∧ a ≠ c := by
  simp [eraseMember]

theorem mem_foldl_insertMember {l : List Int} {init : List Int} {a : Int} :
    a ∈ l.foldl insertMember init ↔ a ∈ init ∨ a ∈ l := by
  induction l generalizing init with
  | nil => simp
  | cons x xs ih =>
    simp only [List.foldl_cons, ih, mem_insertMember, List.mem_cons]
    tauto

/-! ## Room manager (`chat_room.h` / `chat_room.cpp`) -/

/-- Embeds `struct Room` (the `created_at` time point plays no role in any
room-manager operation and is omitted). -/
structure Room where
  name : String
  topic : String
  members : List Int
  owner_id : Int
  is_private : Bool
  password : String
deriving DecidableEq

/-- The `Room(room_name, owner)` constructor (defaults: empty topic,
no members, public, empty password). -/
def Room.make (room_name : String) (owner : Int) : Room :=
  { name := room_name, topic := "", members := [], owner_id := owner,
    is_private := false, password := "" }

/-- Embeds `class ChatRoomManager`: the two maps guarded by `rooms_mutex`. -/
structure ChatRoomManager where
  rooms : String → Option Room
  client_rooms : Int → Option String

/-- Embeds `ChatRoomManager::ChatRoomManager()`: only the `"general"` room, with
its welcome topic. -/
def ChatRoomManager.init : ChatRoomManager :=
  { rooms := setKey (fun _ => none) "general"
      (some { Room.make "general" 0 with topic := "Welcome to the chat server!" }),
    client_rooms := fun _ => none }

/-- Embeds `ChatRoomManager::CreateRoom`. -/
def CreateRoom (s : ChatRoomManager) (name : String) (owner_id : Int)
    (is_private : Bool) (password : String) : Bool × ChatRoomManager :=
  match s.rooms name with
  | some _ => (false, s)
  | none =>
    let room : Room :=
      { Room.make name owner_id with is_private := is_private, password := password }
    (true, { s with rooms := setKey s.rooms name (some room) })

/-- The `"general"` room after `DeleteRoom`'s migration loop: every member
of the deleted `room` is inserted into `rooms["general"].members` (the
`operator[]` default construction `Room()` is modelled by
`getD (Room.make "" 0)`). -/
def generalAfterDelete (s : ChatRoomManager) (room : Room) : Room :=
  let general := (s.rooms "general").getD (Room.make "" 0)
  { general with members := room.members.foldl insertMember general.members }

/-- Embeds `ChatRoomManager::DeleteRoom`.  On success the members are migrated
into `"general"`, `client_rooms` is redirected, and the room is erased. -/
def DeleteRoom (s : ChatRoomManager) (name : String) (requester_id : Int) :
    Bool × ChatRoomManager :=
  if name = "general" then (false, s)
  else
    match s.rooms name with
    | none => (false, s)
    | some room =>
      if room.owner_id ≠ requester_id ∧ requester_id ≠ 0 then (false, s)
      else
        (true,
          { rooms := setKey (setKey s.rooms "general" (some (generalAfterDelete s room)))
              name none,
            client_rooms := fun c =>
              if c ∈ room.members then some "general" else s.client_rooms c })

/-- The "leave current room first" step shared textually by `JoinRoom`
(erase the joining client from the room `client_rooms` points at, when both
exist; `client_rooms` itself is not yet touched). -/
def eraseFromCurrent (s : ChatRoomManager) (client_id : Int) :
    String → Option Room :=
  match s.client_rooms client_id with
  | none => s.rooms
  | some cur =>
    match s.rooms cur with
    | none => s.rooms
    | some curRoom =>
      setKey s.rooms cur (some { curRoom with members := eraseMember curRoom.members client_id })

/-- The target room as seen through `JoinRoom`'s iterator `it` after the
leave step (the iterator aliases the map entry, so when the client's
current room is the target itself the erased entry is re-read; the
`getD room` fallback is unreachable since the leave step never removes a
key), with the joining client inserted. -/
def joinedRoom (s : ChatRoomManager) (name : String) (room : Room)
    (client_id : Int) : Room :=
  let newRoom := (eraseFromCurrent s client_id name).getD room
  { newRoom with members := insertMember newRoom.members client_id }

/-- Embeds `ChatRoomManager::JoinRoom`. -/
def JoinRoom (s : ChatRoomManager) (name : String) (client_id : Int)
    (password : String) : Bool × ChatRoomManager :=
  match s.rooms name with
  | none => (false, s)
  | some room =>
    if room.is_private = true ∧ room.password ≠ password then (false, s)
    else
      (true,
        { rooms := setKey (eraseFromCurrent s client_id) name
            (some (joinedRoom s name room client_id)),
          client_rooms := setKey s.client_rooms client_id (some name) })

/-- Embeds `ChatRoomManager::LeaveRoom`. -/
def LeaveRoom (s : ChatRoomManager) (client_id : Int) : ChatRoomManager :=
  match s.client_rooms client_id with
  | none => s
  | some _ =>
    { rooms := eraseFromCurrent s client_id,
      client_rooms := setKey s.client_rooms client_id none }

/-- Embeds `ChatRoomManager::GetClientRoom`: the recorded room, defaulting to
`"general"` for untracked clients. -/
def GetClientRoom (s : ChatRoomManager) (client_id : Int) : String :=
  match s.client_rooms client_id with
  | some r => r
  | none => "general"

/-- Embeds `ChatRoomManager::GetRoomMembers`. -/
def GetRoomMembers (s : ChatRoomManager) (room_name : String) : List Int :=
  match s.rooms room_name with
  | none => []
  | some room => room.members

/-- The four mutating room-manager operations, for quantifying over call
sequences. -/
inductive RoomOp where
  | create (name : String) (owner_id : Int) (is_private : Bool) (password : String)
  | delete (name : String) (requester_id : Int)
  | join (name : String) (client_id : Int) (password : String)
  | leave (client_id : Int)

def applyRoomOp (s : ChatRoomManager) (op : RoomOp) : ChatRoomManager :=
  match op with
  | .create name owner_id is_private password =>
      (CreateRoom s name owner_id is_private password).2
  | .delete name requester_id => (DeleteRoom s name requester_id).2
  | .join name client_id password => (JoinRoom s name client_id password).2
  | .leave client_id => LeaveRoom s client_id

def runRoomOps (ops : List RoomOp) : ChatRoomManager :=
  ops.foldl applyRoomOp ChatRoomManager.init

/-- Membership consistency: `client_rooms c = r` implies `r` exists with
`c` among its members, and conversely membership implies the tracking
entry (which forces uniqueness of the containing room). -/
def Consistent (s : ChatRoomManager) : Prop :=
  (∀ c r, s.client_rooms c = some r →
      ∃ room, s.rooms r = some room ∧ c ∈ room.members)
  ∧ (∀ c r room, s.rooms r = some room → c ∈ room.members →
      s.client_rooms c = some r)

theorem consistent_init : Consistent ChatRoomManager.init := by
  constructor
  · intro c r h
    simp [ChatRoomManager.init] at h
  · intro c r room hroom hmem
    simp only [ChatRoomManager.init, setKey] at hroom
    split at hroom
    · cases hroom
      simp [Room.make] at hmem
    · cases hroom

theorem consistent_create (s : ChatRoomManager) (name : String) (owner_id : Int)
    (is_private : Bool) (password : String) (h : Consistent s) :
    Consistent (CreateRoom s name owner_id is_private password).2 := by
  obtain ⟨h1, h2⟩ := h
  unfold CreateRoom
  split
  · exact ⟨h1, h2⟩
  · rename_i hnone
    refine ⟨?_, ?_⟩
    · intro c r hc
      simp only at hc
      obtain ⟨room, hr, hm⟩ := h1 c r hc
      refine ⟨room, ?_, hm⟩
      by_cases hrn : r = name
      · subst hrn; rw [hr] at hnone; cases hnone
      · simpa [setKey_ne _ _ _ _ hrn]
    · intro c r room hroom hmem
      simp only at hroom ⊢
      by_cases hrn : r = name
      · subst hrn
        rw [setKey_same] at hroom
        cases hroom
        simp [Room.make] at hmem
      · rw [setKey_ne _ _ _ _ hrn] at hroom
        exact h2 c r room hroom hmem

theorem mem_generalAfterDelete {s : ChatRoomManager} {room : Room} {c : Int} :
    c ∈ (generalAfterDelete s room).members ↔
      (∃ g, s.rooms "general" = some g ∧ c ∈ g.members) ∨ c ∈ room.members := by
  unfold generalAfterDelete
  simp only [mem_foldl_insertMember]
  rcases hgen : s.rooms "general" with _ | g
  · simp [Room.make]
  · simp

theorem consistent_delete (s : ChatRoomManager) (name : String)
    (requester_id : Int) (h : Consistent s) :
    Consistent (DeleteRoom s name requester_id).2 := by
  obtain ⟨h1, h2⟩ := h
  unfold DeleteRoom
  split
  · exact ⟨h1, h2⟩
  · rename_i hng
    split
    · exact ⟨h1, h2⟩
    · rename_i room hroom
      split
      · exact ⟨h1, h2⟩
      · constructor
        · -- tracked implies member
          intro c r hc
          simp only at hc ⊢
          by_cases hcm : c ∈ room.members
          · rw [if_pos hcm] at hc
            cases hc
            refine ⟨generalAfterDelete s room, ?_, ?_⟩
            · rw [setKey_ne _ _ _ _ (Ne.symm hng), setKey_same]
            · exact mem_generalAfterDelete.mpr (Or.inr hcm)
          · rw [if_neg hcm] at hc
            obtain ⟨rm, hr, hm⟩ := h1 c r hc
            have hrname : r ≠ name := by
              rintro rfl
              rw [hroom] at hr
              cases hr
              exact hcm hm
            by_cases hrg : r = "general"
            · subst hrg
              refine ⟨generalAfterDelete s room, ?_, ?_⟩
              · rw [setKey_ne _ _ _ _ (Ne.symm hng), setKey_same]
              · exact mem_generalAfterDelete.mpr (Or.inl ⟨rm, hr, hm⟩)
            · refine ⟨rm, ?_, hm⟩
              rw [setKey_ne _ _ _ _ hrname, setKey_ne _ _ _ _ hrg]
              exact hr
        · -- member implies tracked
          intro c r rm' hr' hm'
          simp only at hr' ⊢
          by_cases hrname : r = name
          · subst hrname
            rw [setKey_same] at hr'
            cases hr'
          · rw [setKey_ne _ _ _ _ hrname] at hr'
            by_cases hrg : r = "general"
            · subst hrg
              rw [setKey_same] at hr'
              cases hr'
              rcases mem_generalAfterDelete.mp hm' with ⟨g, hg1, hg2⟩ | hnew
              · have htr := h2 c "general" g hg1 hg2
                by_cases hcm : c ∈ room.members
                · simp [hcm]
                · simpa [hcm]
              · simp [hnew]
            · rw [setKey_ne _ _ _ _ hrg] at hr'
              have htr := h2 c r rm' hr' hm'
              have hcm : c ∉ room.members := by
                intro hc
                have := h2 c name room hroom hc
                rw [htr] at this
                cases this
                exact hrname rfl
              simpa [hcm]

theorem eraseFromCurrent_eq_or (s : ChatRoomManager) (client_id : Int)
    (k : String) :
    eraseFromCurrent s client_id k = s.rooms k ∨
    (∃ cur curRoom, s.client_rooms client_id = some cur ∧
      s.rooms cur = some curRoom ∧ k = cur ∧
      eraseFromCurrent s client_id k =
        some { curRoom with members := eraseMember curRoom.members client_id }) := by
  unfold eraseFromCurrent
  rcases hc : s.client_rooms client_id with _ | cur
  · exact Or.inl rfl
  · dsimp only
    rcases hr : s.rooms cur with _ | curRoom
    · exact Or.inl rfl
    · dsimp only
      by_cases hk : k = cur
      · subst hk
        exact Or.inr ⟨k, curRoom, rfl, hr, rfl, setKey_same _ _ _⟩
      · rw [setKey_ne _ _ _ _ hk]
        exact Or.inl rfl

theorem eraseFromCurrent_at_current {s : ChatRoomManager} {client_id : Int}
    {cur : String} {curRoom : Room}
    (hc : s.client_rooms client_id = some cur) (hr : s.rooms cur = some curRoom) :
    eraseFromCurrent s client_id cur =
      some { curRoom with members := eraseMember curRoom.members client_id } := by
  unfold eraseFromCurrent
  rw [hc]
  dsimp only
  rw [hr]
  dsimp only
  rw [setKey_same]

theorem consistent_join (s : ChatRoomManager) (name : String) (client_id : Int)
    (password : String) (h : Consistent s) :
    Consistent (JoinRoom s name client_id password).2 := by
  obtain ⟨h1, h2⟩ := h
  unfold JoinRoom
  split
  · exact ⟨h1, h2⟩
  · rename_i room hroom
    split
    · exact ⟨h1, h2⟩
    · constructor
      · -- tracked implies member
        intro c r hc
        simp only at hc ⊢
        by_cases hcc : c = client_id
        · subst hcc
          rw [setKey_same] at hc
          cases hc
          refine ⟨joinedRoom s name room c, setKey_same _ _ _, ?_⟩
          unfold joinedRoom
          simp only [mem_insertMember]
          tauto
        · rw [setKey_ne _ _ _ _ hcc] at hc
          obtain ⟨rm, hr, hm⟩ := h1 c r hc
          by_cases hrn : r = name
          · subst hrn
            refine ⟨joinedRoom s r room client_id, setKey_same _ _ _, ?_⟩
            unfold joinedRoom
            simp only [mem_insertMember]
            right
            rcases eraseFromCurrent_eq_or s client_id r with heq |
              ⟨cur, curRoom, hc2, hr2, hkc, heq⟩
            · rw [heq, hr]
              simpa using hm
            · subst hkc
              rw [heq]
              simp only [Option.getD_some]
              rw [hr] at hr2
              cases hr2
              exact mem_eraseMember.mpr ⟨hm, hcc⟩
          · rw [setKey_ne _ _ _ _ hrn]
            rcases eraseFromCurrent_eq_or s client_id r with heq |
              ⟨cur, curRoom, hc2, hr2, hkc, heq⟩
            · rw [heq]
              exact ⟨rm, hr, hm⟩
            · subst hkc
              rw [heq]
              rw [hr] at hr2
              cases hr2
              exact ⟨_, rfl, mem_eraseMember.mpr ⟨hm, hcc⟩⟩
      · -- member implies tracked
        intro c r rm' hr' hm'
        simp only at hr' ⊢
        by_cases hrn : r = name
        · subst hrn
          rw [setKey_same] at hr'
          cases hr'
          by_cases hcc : c = client_id
          · subst hcc
            rw [setKey_same]
          · rw [setKey_ne _ _ _ _ hcc]
            unfold joinedRoom at hm'
            simp only [mem_insertMember] at hm'
            rcases hm' with rfl | hm'
            · exact absurd rfl hcc
            rcases eraseFromCurrent_eq_or s client_id r with heq |
              ⟨cur, curRoom, hc2, hr2, hkc, heq⟩
            · rw [heq, hroom] at hm'
              simp only [Option.getD_some] at hm'
              exact h2 c r room hroom hm'
            · subst hkc
              rw [heq] at hm'
              simp only [Option.getD_some] at hm'
              exact h2 c _ curRoom hr2 (mem_eraseMember.mp hm').1
        · rw [setKey_ne _ _ _ _ hrn] at hr'
          by_cases hcc : c = client_id
          · subst hcc
            exfalso
            rcases eraseFromCurrent_eq_or s c r with heq |
              ⟨cur, curRoom, hc2, hr2, hkc, heq⟩
            · rw [heq] at hr'
              have htr := h2 c r rm' hr' hm'
              have hfix := eraseFromCurrent_at_current htr hr'
              rw [heq, hr'] at hfix
              have hmem : rm'.members = eraseMember rm'.members c :=
                congrArg Room.members (Option.some_inj.mp hfix)
              have : c ∈ eraseMember rm'.members c := hmem ▸ hm'
              exact (mem_eraseMember.mp this).2 rfl
            · subst hkc
              rw [heq] at hr'
              cases hr'
              exact (mem_eraseMember.mp hm').2 rfl
          · rw [setKey_ne _ _ _ _ hcc]
            rcases eraseFromCurrent_eq_or s client_id r with heq |
              ⟨cur, curRoom, hc2, hr2, hkc, heq⟩
            · rw [heq] at hr'
              exact h2 c r rm' hr' hm'
            · subst hkc
              rw [heq] at hr'
              cases hr'
              exact h2 c r curRoom hr2 (mem_eraseMember.mp hm').1

theorem consistent_leave (s : ChatRoomManager) (client_id : Int)
    (h : Consistent s) : Consistent (LeaveRoom s client_id) := by
  obtain ⟨h1, h2⟩ := h
  unfold LeaveRoom
  split
  · exact ⟨h1, h2⟩
  · rename_i cur hcur
    constructor
    · intro c r hc
      simp only at hc ⊢
      by_cases hcc : c = client_id
      · subst hcc
        rw [setKey_same] at hc
        cases hc
      · rw [setKey_ne _ _ _ _ hcc] at hc
        obtain ⟨rm, hr, hm⟩ := h1 c r hc
        rcases eraseFromCurrent_eq_or s client_id r with heq |
          ⟨cur', curRoom, hc2, hr2, hkc, heq⟩
        · rw [heq]
          exact ⟨rm, hr, hm⟩
        · subst hkc
          rw [heq]
          rw [hr] at hr2
          cases hr2
          exact ⟨_, rfl, mem_eraseMember.mpr ⟨hm, hcc⟩⟩
    · intro c r rm' hr' hm'
      simp only at hr' ⊢
      by_cases hcc : c = client_id
      · subst hcc
        exfalso
        rcases eraseFromCurrent_eq_or s c r with heq |
          ⟨cur', curRoom, hc2, hr2, hkc, heq⟩
        · rw [heq] at hr'
          have htr := h2 c r rm' hr' hm'
          have hfix := eraseFromCurrent_at_current htr hr'
          rw [heq, hr'] at hfix
          have hmem : rm'.members = eraseMember rm'.members c :=
            congrArg Room.members (Option.some_inj.mp hfix)
          have : c ∈ eraseMember rm'.members c := hmem ▸ hm'
          exact (mem_eraseMember.mp this).2 rfl
        · subst hkc
          rw [heq] at hr'
          cases hr'
          exact (mem_eraseMember.mp hm').2 rfl
      · rw [setKey_ne _ _ _ _ hcc]
        rcases eraseFromCurrent_eq_or s client_id r with heq |
          ⟨cur', curRoom, hc2, hr2, hkc, heq⟩
        · rw [heq] at hr'
          exact h2 c r rm' hr' hm'
        · subst hkc
          rw [heq] at hr'
          cases hr'
          exact h2 c r curRoom hr2 (mem_eraseMember.mp hm').1

theorem consistent_applyRoomOp (s : ChatRoomManager) (op : RoomOp)
    (h : Consistent s) : Consistent (applyRoomOp s op) := by
  cases op with
  | create name owner_id is_private password =>
      exact consistent_create s name owner_id is_private password h
  | delete name requester_id => exact consistent_delete s name requester_id h
  | join name client_id password => exact consistent_join s name client_id password h
  | leave client_id => exact consistent_leave s client_id h

theorem consistent_runRoomOps (ops : List RoomOp) : Consistent (runRoomOps ops) := by
  unfold runRoomOps
  generalize hs : ChatRoomManager.init = s0
  have h0 : Consistent s0 := hs ▸ consistent_init
  clear hs
  induction ops generalizing s0 with
  | nil => exact h0
  | cons op ops ih => exact ih _ (consistent_applyRoomOp s0 op h0)

theorem deleteRoom_general (s : ChatRoomManager) (req : Int) :
    DeleteRoom s "general" req = (false, s) := by
  unfold DeleteRoom
  simp

theorem deleteRoom_missing (s : ChatRoomManager) (name : String) (req : Int)
    (hng : name ≠ "general") (h : s.rooms name = none) :
    DeleteRoom s name req = (false, s) := by
  unfold DeleteRoom
  rw [if_neg hng, h]

theorem deleteRoom_unauthorized (s : ChatRoomManager) (name : String)
    (req : Int) (room : Room) (hng : name ≠ "general")
    (h : s.rooms name = some room) (h1 : room.owner_id ≠ req) (h2 : req ≠ 0) :
    DeleteRoom s name req = (false, s) := by
  unfold DeleteRoom
  rw [if_neg hng, h]
  dsimp only
  rw [if_pos ⟨h1, h2⟩]

theorem deleteRoom_success (s : ChatRoomManager) (name : String) (req : Int)
    (room : Room) (hng : name ≠ "general") (h : s.rooms name = some room)
    (hauth : room.owner_id = req ∨ req = 0) :
    DeleteRoom s name req = (true,
      { rooms := setKey (setKey s.rooms "general" (some (generalAfterDelete s room)))
          name none,
        client_rooms := fun c =>
          if c ∈ room.members then some "general" else s.client_rooms c }) := by
  unfold DeleteRoom
  rw [if_neg hng, h]
  dsimp only
  rw [if_neg (by tauto)]

/-- Claim C5: `DeleteRoom(name, requester)` returns `false` and leaves the
state unchanged when `name` is `"general"`, when no such room exists, or
when the requester is neither owner nor administrator 0; on success the
room is removed and every prior member lands in `"general"`, both in
`client_rooms` and in `"general"`'s member set. -/
theorem c5_delete_room (s : ChatRoomManager) (name : String) (req : Int) :
    (name = "general" → DeleteRoom s name req = (false, s)) ∧
    (s.rooms name = none → DeleteRoom s name req = (false, s)) ∧
    (∀ room, s.rooms name = some room → room.owner_id ≠ req → req ≠ 0 →
      DeleteRoom s name req = (false, s)) ∧
    (∀ room, s.rooms name = some room → name ≠ "general" →
      (room.owner_id = req ∨ req = 0) →
      (DeleteRoom s name req).1 = true ∧
      (DeleteRoom s name req).2.rooms name = none ∧
      ∀ c ∈ room.members,
        (DeleteRoom s name req).2.client_rooms c = some "general" ∧
        ∃ g, (DeleteRoom s name req).2.rooms "general" = some g ∧ c ∈ g.members) := by
  refine ⟨?_, ?_, ?_, ?_⟩
  · intro hg
    subst hg
    exact deleteRoom_general s req
  · intro hnone
    by_cases hg : name = "general"
    · subst hg
      exact deleteRoom_general s req
    · exact deleteRoom_missing s name req hg hnone
  · intro room hsome h1 h2
    by_cases hg : name = "general"
    · subst hg
      exact deleteRoom_general s req
    · exact deleteRoom_unauthorized s name req room hg hsome h1 h2
  · intro room hsome hng hauth
    have hD := deleteRoom_success s name req room hng hsome hauth
    rw [hD]
    refine ⟨rfl, setKey_same _ _ _, ?_⟩
    intro c hc
    constructor
    · simp only [hc, if_pos]
    · refine ⟨generalAfterDelete s room, ?_, ?_⟩
      · show setKey (setKey s.rooms "general" (some (generalAfterDelete s room)))
            name none "general" = some (generalAfterDelete s room)
        rw [setKey_ne _ _ _ _ (Ne.symm hng), setKey_same]
      · exact mem_generalAfterDelete.mpr (Or.inr hc)

theorem c5_delete_room_witness :
    DeleteRoom ChatRoomManager.init "general" 1 = (false, ChatRoomManager.init) :=
  (c5_delete_room ChatRoomManager.init "general" 1).1 rfl

/-- Claim C1: starting from the initial room-manager state, after any
sequence of create/delete/join/leave operations, every tracked client is a
member of the room `client_rooms` points at, that room exists, and the
client belongs to no other room's member set. -/
theorem c1_room_membership_consistency (ops : List RoomOp) (c : Int) (r : String)
    (h : (runRoomOps ops).client_rooms c = some r) :
    (∃ room, (runRoomOps ops).rooms r = some room ∧ c ∈ room.members) ∧
    (∀ r' room', (runRoomOps ops).rooms r' = some room' → c ∈ room'.members →
      r' = r) := by
  obtain ⟨h1, h2⟩ := consistent_runRoomOps ops
  refine ⟨h1 c r h, ?_⟩
  intro r' room' hr' hm'
  have htr := h2 c r' room' hr' hm'
  rw [h] at htr
  exact (Option.some_inj.mp htr).symm

theorem c1_room_membership_consistency_witness :
    (runRoomOps [RoomOp.join "general" 3 ""]).client_rooms 3 = some "general" ∧
    ((∃ room, (runRoomOps [RoomOp.join "general" 3 ""]).rooms "general" = some room ∧
        (3 : Int) ∈ room.members) ∧
     (∀ r' room', (runRoomOps [RoomOp.join "general" 3 ""]).rooms r' = some room' →
        (3 : Int) ∈ room'.members → r' = "general")) :=
  ⟨by decide, c1_room_membership_consistency [RoomOp.join "general" 3 ""] 3 "general"
    (by decide)⟩

/-- Claim C10: `GetClientRoom` returns `"general"` for every client with no
entry in the client-to-room map (never joined, or removed by `LeaveRoom`),
and the recorded room name for tracked clients. -/
theorem c10_get_client_room (s : ChatRoomManager) (c : Int) :
    (s.client_rooms c = none → GetClientRoom s c = "general") ∧
    (∀ r, s.client_rooms c = some r → GetClientRoom s c = r) ∧
    GetClientRoom (LeaveRoom s c) c = "general" := by
  refine ⟨?_, ?_, ?_⟩
  · intro h
    unfold GetClientRoom
    rw [h]
  · intro r h
    unfold GetClientRoom
    rw [h]
  · unfold GetClientRoom LeaveRoom
    rcases h : s.client_rooms c with _ | cur
    · rw [h]
    · dsimp only
      rw [setKey_same]

theorem c10_get_client_room_witness :
    GetClientRoom ChatRoomManager.init 3 = "general" :=
  (c10_get_client_room ChatRoomManager.init 3).1 rfl

/-! ## Connection manager (`connection_manager.h` / `connection_manager.cpp`)

Steady-clock instants are integers in milliseconds.  The ban set, the
connection-rate deque and the activity map play no part in the claims
about `AllowMessage` / `Mute` / `OnConnect` and are omitted from the
state. -/

/-- Embeds `ConnectionManager::Config` (defaults from the header). -/
structure CMConfig where
  max_connections_per_second : Nat := 50
  max_messages_per_minute : Nat := 60
  heartbeat_interval_seconds : Nat := 30
  connection_timeout_seconds : Nat := 120
  max_total_connections : Nat := 1000

/-- A `muted_clients` entry: `steady_clock::time_point::max()` is the
permanent sentinel, otherwise an expiry instant. -/
inductive MuteTime where
  | timeMax
  | timeAt (t : Int)
deriving DecidableEq

structure ConnectionManager where
  config : CMConfig
  client_messages : Int → List Int
  muted_clients : Int → Option MuteTime
  current_connections : Int

def ConnectionManager.init : ConnectionManager :=
  { config := {}, client_messages := fun _ => [],
    muted_clients := fun _ => none, current_connections := 0 }

/-- Embeds `ConnectionManager::IsMuted` at instant `now`: an expired finite mute
is erased lazily and reported as not muted. -/
def IsMuted (cm : ConnectionManager) (client_id : Int) (now : Int) :
    Bool × ConnectionManager :=
  match cm.muted_clients client_id with
  | none => (false, cm)
  | some MuteTime.timeMax => (true, cm)
  | some (MuteTime.timeAt t) =>
    if now > t then
      (false, { cm with muted_clients := setKey cm.muted_clients client_id none })
    else (true, cm)

/-- Embeds `ConnectionManager::AllowMessage`: false when muted; otherwise evict
the client's timestamps older than one minute from the deque's front and
compare the remaining count against `max_messages_per_minute`. -/
def AllowMessage (cm : ConnectionManager) (client_id : Int) (now : Int) :
    Bool × ConnectionManager :=
  match IsMuted cm client_id now with
  | (true, cm1) => (false, cm1)
  | (false, cm1) =>
    let trimmed := (cm1.client_messages client_id).dropWhile (fun t => t < now - 60000)
    (decide (trimmed.length < cm1.config.max_messages_per_minute),
      { cm1 with client_messages := setKey cm1.client_messages client_id trimmed })

/-- Embeds `ConnectionManager::RecordMessage` (the `UpdateActivity` call touches
only the omitted activity map). -/
def RecordMessage (cm : ConnectionManager) (client_id : Int) (now : Int) :
    ConnectionManager :=
  { cm with client_messages :=
      setKey cm.client_messages client_id (cm.client_messages client_id ++ [now]) }

/-- Embeds `ConnectionManager::Mute`: duration `0` is permanent, otherwise the
mute expires `duration_seconds` later. -/
def Mute (cm : ConnectionManager) (client_id : Int) (duration_seconds : Int)
    (now : Int) : ConnectionManager :=
  if duration_seconds = 0 then
    { cm with muted_clients := setKey cm.muted_clients client_id (some MuteTime.timeMax) }
  else
    let expiry := MuteTime.timeAt (now + duration_seconds * 1000)
    { cm with muted_clients := setKey cm.muted_clients client_id (some expiry) }

/-- Embeds `ConnectionManager::Unmute`. -/
def Unmute (cm : ConnectionManager) (client_id : Int) : ConnectionManager :=
  { cm with muted_clients := setKey cm.muted_clients client_id none }

def GetConnectionCount (cm : ConnectionManager) : Int := cm.current_connections

/-- Two's-complement wrap of a 32-bit `int`: the value a wrapping
`std::atomic<int>` arithmetic step actually stores. -/
def wrap32 (n : Int) : Int := (n + 2147483648) % 4294967296 - 2147483648

theorem wrap32_eq_self (n : Int) (h1 : -2147483648 ≤ n)
    (h2 : n < 2147483648) : wrap32 n = n := by
  unfold wrap32
  omega

theorem wrap32_add_wrap32 (x y : Int) :
    wrap32 (wrap32 x + y) = wrap32 (x + y) := by
  unfold wrap32
  omega

theorem wrap32_wrap32 (x : Int) : wrap32 (wrap32 x) = wrap32 x := by
  have h := wrap32_add_wrap32 x 0
  simpa using h

/-- Embeds `ConnectionManager::OnConnect`: `current_connections++` is a
`fetch_add` on `std::atomic<int>`, a defined two's-complement wrapping
increment. -/
def OnConnect (cm : ConnectionManager) : ConnectionManager :=
  { cm with current_connections := wrap32 (cm.current_connections + 1) }

/-- Embeds `ConnectionManager::OnDisconnect`: guarded (wrapping)
decrement. -/
def OnDisconnect (cm : ConnectionManager) : ConnectionManager :=
  if cm.current_connections > 0 then
    { cm with current_connections := wrap32 (cm.current_connections - 1) }
  else cm

inductive ConnEvent where
  | connect
  | disconnect

def ConnEvent.isConnect : ConnEvent → Bool
  | .connect => true
  | .disconnect => false

def applyConnEvent (cm : ConnectionManager) (e : ConnEvent) : ConnectionManager :=
  match e with
  | .connect => OnConnect cm
  | .disconnect => OnDisconnect cm

def runConnEvents (evs : List ConnEvent) : ConnectionManager :=
  evs.foldl applyConnEvent ConnectionManager.init

/-- The number of `OnConnect` calls in an event sequence. -/
def countConnects (evs : List ConnEvent) : Nat :=
  (evs.filter ConnEvent.isConnect).length

theorem connCount_nonneg (evs : List ConnEvent) :
    ∀ cm : ConnectionManager, 0 ≤ cm.current_connections →
    cm.current_connections + (countConnects evs : Int) < 2147483648 →
    0 ≤ (evs.foldl applyConnEvent cm).current_connections := by
  induction evs with
  | nil =>
    intro cm h _
    exact h
  | cons e evs ih =>
    intro cm h hbound
    cases e with
    | connect =>
      have hcc : countConnects (ConnEvent.connect :: evs) = countConnects evs + 1 := by
        simp [countConnects, ConnEvent.isConnect]
      rw [hcc] at hbound
      have hoc : (OnConnect cm).current_connections = cm.current_connections + 1 := by
        show wrap32 (cm.current_connections + 1) = cm.current_connections + 1
        apply wrap32_eq_self <;> omega
      simp only [List.foldl_cons]
      exact ih (OnConnect cm) (by rw [hoc]; omega) (by rw [hoc]; omega)
    | disconnect =>
      have hcc : countConnects (ConnEvent.disconnect :: evs) = countConnects evs := by
        simp [countConnects, ConnEvent.isConnect]
      rw [hcc] at hbound
      simp only [List.foldl_cons]
      by_cases hpos : cm.current_connections > 0
      · have hod : (OnDisconnect cm).current_connections =
            cm.current_connections - 1 := by
          unfold OnDisconnect
          rw [if_pos hpos]
          show wrap32 (cm.current_connections - 1) = cm.current_connections - 1
          apply wrap32_eq_self <;> omega
        exact ih (OnDisconnect cm) (by rw [hod]; omega) (by rw [hod]; omega)
      · have hod : OnDisconnect cm = cm := by
          unfold OnDisconnect
          rw [if_neg hpos]
        show 0 ≤ (evs.foldl applyConnEvent (OnDisconnect cm)).current_connections
        rw [hod]
        exact ih cm h hbound

theorem connect_replicate (k : Nat) :
    ∀ cm : ConnectionManager, wrap32 cm.current_connections = cm.current_connections →
    ((List.replicate k ConnEvent.connect).foldl applyConnEvent cm).current_connections =
      wrap32 (cm.current_connections + (k : Int)) := by
  induction k with
  | zero =>
    intro cm hr
    simpa using hr.symm
  | succ k ih =>
    intro cm hr
    rw [List.replicate_succ]
    simp only [List.foldl_cons]
    show ((List.replicate k ConnEvent.connect).foldl applyConnEvent
        (OnConnect cm)).current_connections = _
    rw [ih (OnConnect cm) (wrap32_wrap32 (cm.current_connections + 1))]
    show wrap32 (wrap32 (cm.current_connections + 1) + (k : Int)) = _
    rw [wrap32_add_wrap32]
    congr 1
    omega

theorem runConnEvents_replicate_connect (k : Nat) :
    GetConnectionCount (runConnEvents (List.replicate k ConnEvent.connect)) =
      wrap32 (k : Int) := by
  have h := connect_replicate k ConnectionManager.init (by decide)
  calc GetConnectionCount (runConnEvents (List.replicate k ConnEvent.connect))
      = ((List.replicate k ConnEvent.connect).foldl applyConnEvent
          ConnectionManager.init).current_connections := rfl
    _ = wrap32 (ConnectionManager.init.current_connections + (k : Int)) := h
    _ = wrap32 ((0 : Int) + (k : Int)) := rfl
    _ = wrap32 (k : Int) := by rw [zero_add]

/-- Counterexample to claim C9 as stated: the counter is a
two's-complement `std::atomic<int>`, so 2³¹ consecutive `OnConnect()`
calls wrap it to `INT_MIN` and `GetConnectionCount()` reports a negative
value. -/
theorem c9_overflow_counterexample :
    GetConnectionCount
        (runConnEvents (List.replicate 2147483648 ConnEvent.connect)) =
      -2147483648 ∧
    GetConnectionCount
        (runConnEvents (List.replicate 2147483648 ConnEvent.connect)) < 0 := by
  have h := runConnEvents_replicate_connect 2147483648
  constructor
  · rw [h]
    decide
  · rw [h]
    decide

/-- Claim C9 (amended): as long as a call sequence contains fewer than
2³¹ `OnConnect()` calls — so the `int` counter cannot overflow — the
reported count stays nonnegative for any interleaving, and
`OnDisconnect` at count `0` leaves the count at `0` rather than
decrementing; with 2³¹ connects the two's-complement counter wraps
negative (see the counterexample). -/
theorem c9_connection_count_nonneg (evs : List ConnEvent)
    (h : countConnects evs < 2147483648) :
    0 ≤ GetConnectionCount (runConnEvents evs) ∧
    (∀ cm : ConnectionManager, GetConnectionCount cm = 0 →
      GetConnectionCount (OnDisconnect cm) = 0) := by
  constructor
  · refine connCount_nonneg evs ConnectionManager.init (by decide) ?_
    show (0 : Int) + (countConnects evs : Int) < 2147483648
    omega
  · intro cm h0
    unfold GetConnectionCount at h0 ⊢
    unfold OnDisconnect
    rw [if_neg (by omega)]
    exact h0

theorem c9_connection_count_nonneg_witness :
    countConnects [ConnEvent.disconnect, ConnEvent.disconnect] < 2147483648 ∧
    (0 ≤ GetConnectionCount
        (runConnEvents [ConnEvent.disconnect, ConnEvent.disconnect]) ∧
     (∀ cm : ConnectionManager, GetConnectionCount cm = 0 →
        GetConnectionCount (OnDisconnect cm) = 0)) :=
  ⟨by decide, c9_connection_count_nonneg
    [ConnEvent.disconnect, ConnEvent.disconnect] (by decide)⟩


theorem isMuted_preserves (cm : ConnectionManager) (client_id : Int) (now : Int) :
    (IsMuted cm client_id now).2.client_messages = cm.client_messages ∧
    (IsMuted cm client_id now).2.config = cm.config := by
  unfold IsMuted
  split
  · exact ⟨rfl, rfl⟩
  · exact ⟨rfl, rfl⟩
  · split
    · exact ⟨rfl, rfl⟩
    · exact ⟨rfl, rfl⟩

theorem dropWhile_isSuffix (p : Int → Bool) (l : List Int) :
    l.dropWhile p <:+ l := by
  induction l with
  | nil => exact List.suffix_refl []
  | cons x xs ih =>
    rw [List.dropWhile_cons]
    split
    · exact ih.trans (List.suffix_cons x xs)
    · exact List.suffix_refl _

theorem dropWhile_lt_eq_filter (cutoff : Int) (l : List Int)
    (hsort : l.Sorted (· ≤ ·)) :
    l.dropWhile (fun t => t < cutoff) = l.filter (fun t => cutoff ≤ t) := by
  induction l with
  | nil => rfl
  | cons x xs ih =>
    rcases List.sorted_cons.mp hsort with ⟨hx, hxs⟩
    rw [List.dropWhile_cons, List.filter_cons]
    simp only [decide_eq_true_eq]
    by_cases hlt : x < cutoff
    · rw [if_pos hlt, if_neg (not_le.mpr hlt)]
      exact ih hxs
    · rw [if_neg hlt, if_pos (not_lt.mp hlt)]
      congr 1
      symm
      rw [List.filter_eq_self]
      intro y hy
      simpa using le_trans (not_lt.mp hlt) (hx y hy)

/-- Claim C6: `AllowMessage` returns `false` whenever the client is muted
(the expired-mute entry having been lazily erased by the check); otherwise
it returns `true` iff the number of the client's timestamps within the
preceding 60 000 ms (equivalently, what remains of the chronological deque
after the lazy front eviction) is strictly below `max_messages_per_minute`.
`AllowMessage` never appends a timestamp (its resulting deque is a suffix
of the old one); `RecordMessage` appends one. -/
theorem c6_allow_message (cm : ConnectionManager) (client_id : Int) (now : Int)
    (hsort : (cm.client_messages client_id).Sorted (· ≤ ·)) :
    ((IsMuted cm client_id now).1 = true →
      (AllowMessage cm client_id now).1 = false) ∧
    ((IsMuted cm client_id now).1 = false →
      ((AllowMessage cm client_id now).1 = true ↔
        ((cm.client_messages client_id).filter (fun t => now - 60000 ≤ t)).length <
          cm.config.max_messages_per_minute)) ∧
    ((AllowMessage cm client_id now).2.client_messages client_id <:+
      cm.client_messages client_id) ∧
    ((AllowMessage cm client_id now).2.muted_clients =
      (IsMuted cm client_id now).2.muted_clients) ∧
    ((RecordMessage cm client_id now).client_messages client_id =
      cm.client_messages client_id ++ [now]) := by
  obtain ⟨hmsg, hcfg⟩ := isMuted_preserves cm client_id now
  have hrec : (RecordMessage cm client_id now).client_messages client_id =
      cm.client_messages client_id ++ [now] := by
    unfold RecordMessage
    exact setKey_same _ _ _
  rcases hIM : IsMuted cm client_id now with ⟨b, cm1⟩
  rw [hIM] at hmsg hcfg
  cases b with
  | true =>
    have hAM : AllowMessage cm client_id now = (false, cm1) := by
      unfold AllowMessage
      rw [hIM]
    refine ⟨fun _ => congrArg Prod.fst hAM, ?_, ?_, ?_, hrec⟩
    · intro h
      exact Bool.noConfusion h
    · rw [hAM]
      show cm1.client_messages client_id <:+ cm.client_messages client_id
      rw [show cm1.client_messages = cm.client_messages from hmsg]
    · exact congrArg (fun p => p.2.muted_clients) hAM
  | false =>
    have h1 : (AllowMessage cm client_id now).1 =
        decide (((cm1.client_messages client_id).dropWhile
          (fun t => t < now - 60000)).length < cm1.config.max_messages_per_minute) := by
      unfold AllowMessage
      rw [hIM]
    have h2 : (AllowMessage cm client_id now).2.client_messages client_id =
        (cm1.client_messages client_id).dropWhile (fun t => t < now - 60000) := by
      unfold AllowMessage
      rw [hIM]
      exact setKey_same _ _ _
    have h3 : (AllowMessage cm client_id now).2.muted_clients =
        cm1.muted_clients := by
      unfold AllowMessage
      rw [hIM]
    refine ⟨?_, ?_, ?_, ?_, hrec⟩
    · intro h
      exact Bool.noConfusion h
    · intro _
      rw [h1, decide_eq_true_eq,
        show cm1.client_messages = cm.client_messages from hmsg,
        show cm1.config = cm.config from hcfg,
        dropWhile_lt_eq_filter (now - 60000) (cm.client_messages client_id) hsort]
    · rw [h2, show cm1.client_messages = cm.client_messages from hmsg]
      exact dropWhile_isSuffix _ _
    · exact h3

theorem c6_allow_message_witness :
    List.Sorted (fun a b => a ≤ b) (ConnectionManager.init.client_messages 1) ∧
    (((IsMuted ConnectionManager.init 1 0).1 = true →
        (AllowMessage ConnectionManager.init 1 0).1 = false) ∧
     ((IsMuted ConnectionManager.init 1 0).1 = false →
        ((AllowMessage ConnectionManager.init 1 0).1 = true ↔
          ((ConnectionManager.init.client_messages 1).filter
              (fun t => (0 : Int) - 60000 ≤ t)).length <
            ConnectionManager.init.config.max_messages_per_minute)) ∧
     ((AllowMessage ConnectionManager.init 1 0).2.client_messages 1 <:+
        ConnectionManager.init.client_messages 1) ∧
     ((AllowMessage ConnectionManager.init 1 0).2.muted_clients =
        (IsMuted ConnectionManager.init 1 0).2.muted_clients) ∧
     ((RecordMessage ConnectionManager.init 1 0).client_messages 1 =
        ConnectionManager.init.client_messages 1 ++ [0])) :=
  ⟨by decide, c6_allow_message ConnectionManager.init 1 0 (by decide)⟩

/-! ## Message store (`message_store.h` / `message_store.cpp`)

Only the in-memory cache tier is embedded; the on-disk log (opened file
handle, rotation) is I/O and plays no part in the cache claims. -/

/-- Embeds `struct ChatMessage` (the wall-clock `timestamp` is an integer). -/
structure ChatMessage where
  sender_id : Int
  sender_name : String
  room : String
  content : String
  timestamp : Int
deriving DecidableEq

/-- Embeds `MessageStore::Config` (defaults from the header). -/
structure MSConfig where
  max_messages_per_room : Nat := 100
  max_file_size_mb : Nat := 10
  log_directory : String := "./chat_logs"
  enable_persistence : Bool := true

structure MessageStore where
  config : MSConfig
  room_messages : String → List ChatMessage

def MessageStore.init : MessageStore :=
  { config := {}, room_messages := fun _ => [] }

/-- The `while (messages.size() > max) pop_front()` trim loop: drop the
overflow from the front. -/
def trimFront (max : Nat) (l : List ChatMessage) : List ChatMessage :=
  l.drop (l.length - max)

/-- Embeds `MessageStore::Store` (cache tier): append to the room's deque and
trim. -/
def Store (ms : MessageStore) (message : ChatMessage) : MessageStore :=
  let trimmed := trimFront ms.config.max_messages_per_room
    (ms.room_messages message.room ++ [message])
  { ms with room_messages := setKey ms.room_messages message.room trimmed }

/-- Embeds `MessageStore::GetRecent`: the final segment of the room's deque
starting at `size > count ? size - count : 0`. -/
def GetRecent (ms : MessageStore) (room : String) (count : Nat) :
    List ChatMessage :=
  (ms.room_messages room).drop ((ms.room_messages room).length - count)

theorem store_config (ms : MessageStore) (m : ChatMessage) :
    (Store ms m).config = ms.config := rfl

theorem store_fold_config (later : List ChatMessage) (ms : MessageStore) :
    (later.foldl Store ms).config = ms.config := by
  induction later generalizing ms with
  | nil => rfl
  | cons x xs ih => exact ih (Store ms x)

theorem trimFront_append_shape (max : Nat) (pre post : List ChatMessage)
    (m : ChatMessage) (h : post.length + 1 ≤ max) :
    trimFront max (pre ++ m :: post) =
      pre.drop ((pre.length + (post.length + 1)) - max) ++ m :: post := by
  unfold trimFront
  have hlen : (pre ++ m :: post).length = pre.length + (post.length + 1) := by
    simp [List.length_append]
  rw [hlen]
  exact List.drop_append_of_le_length (by omega)

theorem getRecent_full (ms : MessageStore) (room : String) :
    GetRecent ms room (ms.room_messages room).length = ms.room_messages room := by
  unfold GetRecent
  rw [Nat.sub_self]
  rfl

theorem store_cache_same (ms : MessageStore) (m : ChatMessage) :
    (Store ms m).room_messages m.room =
      trimFront ms.config.max_messages_per_room
        (ms.room_messages m.room ++ [m]) := by
  unfold Store
  exact setKey_same _ _ _

theorem store_cache_other (ms : MessageStore) (m : ChatMessage) (r : String)
    (h : r ≠ m.room) : (Store ms m).room_messages r = ms.room_messages r := by
  unfold Store
  exact setKey_ne _ _ _ _ h

theorem store_cache_shape (ms : MessageStore) (m : ChatMessage)
    (hmax : 0 < ms.config.max_messages_per_room) :
    (Store ms m).room_messages m.room =
      (ms.room_messages m.room).drop
          ((ms.room_messages m.room).length + 1 - ms.config.max_messages_per_room)
        ++ m :: [] := by
  rw [store_cache_same]
  have := trimFront_append_shape ms.config.max_messages_per_room
    (ms.room_messages m.room) [] m (by simpa using hmax)
  simpa using this

theorem store_fold_keeps (later : List ChatMessage) :
    ∀ (ms : MessageStore) (r : String) (m : ChatMessage)
      (pre post : List ChatMessage),
    ms.room_messages r = pre ++ m :: post →
    post.length + (later.filter (fun x => x.room = r)).length <
      ms.config.max_messages_per_room →
    ∃ pre2 post2,
      (later.foldl Store ms).room_messages r = pre2 ++ m :: post2 ∧
      post2.length =
        post.length + (later.filter (fun x => x.room = r)).length := by
  induction later with
  | nil =>
    intro ms r m pre post hcache _
    exact ⟨pre, post, hcache, by simp⟩
  | cons x later ih =>
    intro ms r m pre post hcache hcount
    by_cases hxr : x.room = r
    · have hfilter : ((x :: later).filter (fun y => y.room = r)) =
          x :: later.filter (fun y => y.room = r) := by
        rw [List.filter_cons, if_pos (by simpa using hxr)]
      rw [hfilter] at hcount ⊢
      simp only [List.length_cons] at hcount
      have hshape : (Store ms x).room_messages r =
          pre.drop (pre.length + (post.length + 1 + 1) -
              ms.config.max_messages_per_room)
            ++ m :: (post ++ [x]) := by
        have h1 : (Store ms x).room_messages r =
            trimFront ms.config.max_messages_per_room
              (ms.room_messages r ++ [x]) := by
          rw [← hxr] at hcache ⊢
          exact store_cache_same ms x
        rw [h1, hcache]
        have hassoc : (pre ++ m :: post) ++ [x] = pre ++ m :: (post ++ [x]) := by
          simp
        rw [hassoc]
        have := trimFront_append_shape ms.config.max_messages_per_room
          pre (post ++ [x]) m (by simp; omega)
        simpa using this
      simp only [List.foldl_cons]
      obtain ⟨pre2, post2, hc2, hlen2⟩ := ih (Store ms x) r m _ _ hshape
        (by rw [store_config]; simp; omega)
      refine ⟨pre2, post2, hc2, ?_⟩
      rw [hlen2]
      simp
      omega
    · have hfilter : ((x :: later).filter (fun y => y.room = r)) =
          later.filter (fun y => y.room = r) := by
        rw [List.filter_cons, if_neg (by simpa using hxr)]
      rw [hfilter] at hcount ⊢
      simp only [List.foldl_cons]
      exact ih (Store ms x) r m pre post
        (by rw [store_cache_other ms x r (fun h => hxr h.symm)]; exact hcache)
        (by rw [store_config]; exact hcount)

/-- Claim C7 (amended): immediately after `Store(m)`, `GetRecent` with a
count at least the cache length ends in `m`; `GetRecent(r, n)` returns
exactly the most recent `min(n, |cache[r]|)` messages in insertion order
(a suffix of the cache of that length); and a stored message stays
retrievable as long as strictly fewer than `max_messages_per_room` later
messages have been stored in its room (at exactly
`max_messages_per_room` later messages it is evicted, see the
counterexample). -/
theorem c7_message_store_roundtrip (ms : MessageStore)
    (hmax : 0 < ms.config.max_messages_per_room) :
    (∀ (m : ChatMessage) (n : Nat),
      ((Store ms m).room_messages m.room).length ≤ n →
      (GetRecent (Store ms m) m.room n).getLast? = some m) ∧
    (∀ (room : String) (n : Nat),
      (GetRecent ms room n).length = min n (ms.room_messages room).length ∧
      GetRecent ms room n <:+ ms.room_messages room) ∧
    (∀ (m : ChatMessage) (later : List ChatMessage),
      (later.filter (fun x => x.room = m.room)).length <
        ms.config.max_messages_per_room →
      m ∈ GetRecent (later.foldl Store (Store ms m)) m.room
        (((later.foldl Store (Store ms m)).room_messages m.room).length)) := by
  refine ⟨?_, ?_, ?_⟩
  · intro m n hn
    unfold GetRecent
    rw [Nat.sub_eq_zero_of_le hn, List.drop_zero, store_cache_shape ms m hmax]
    exact List.getLast?_concat _
  · intro room n
    constructor
    · unfold GetRecent
      rw [List.length_drop]
      omega
    · exact List.drop_suffix _ _
  · intro m later hcount
    obtain ⟨pre2, post2, hc2, _⟩ := store_fold_keeps later (Store ms m) m.room m
      _ [] (store_cache_shape ms m hmax)
      (by rw [store_config]; simpa using hcount)
    rw [getRecent_full, hc2]
    exact List.mem_append_right _ (List.mem_cons_self m post2)

theorem c7_message_store_roundtrip_witness :
    0 < MessageStore.init.config.max_messages_per_room ∧
    ((∀ (m : ChatMessage) (n : Nat),
        ((Store MessageStore.init m).room_messages m.room).length ≤ n →
        (GetRecent (Store MessageStore.init m) m.room n).getLast? = some m) ∧
     (∀ (room : String) (n : Nat),
        (GetRecent MessageStore.init room n).length =
          min n (MessageStore.init.room_messages room).length ∧
        GetRecent MessageStore.init room n <:+
          MessageStore.init.room_messages room) ∧
     (∀ (m : ChatMessage) (later : List ChatMessage),
        (later.filter (fun x => x.room = m.room)).length <
          MessageStore.init.config.max_messages_per_room →
        m ∈ GetRecent (later.foldl Store (Store MessageStore.init m)) m.room
          (((later.foldl Store (Store MessageStore.init m)).room_messages
            m.room).length))) :=
  ⟨by decide, c7_message_store_roundtrip MessageStore.init (by decide)⟩

/-- A numbered message for the eviction counterexample. -/
def c7msg (i : Nat) : ChatMessage :=
  { sender_id := Int.ofNat i, sender_name := "u", room := "g", content := "x",
    timestamp := 0 }

/-- Exactly `max_messages_per_room` (100) later messages of the same room. -/
def c7later : List ChatMessage := (List.range 100).map (fun i => c7msg (i + 1))

set_option maxRecDepth 10000 in
/-- Counterexample to claim C7 as stated: with the default cache bound 100,
a message followed by exactly 100 (not "more than 100") later messages of
its room is already evicted and no longer returned by `GetRecent` over the
whole cache. -/
theorem c7_eviction_at_max_counterexample :
    (c7later.filter (fun x => x.room = (c7msg 0).room)).length =
      MessageStore.init.config.max_messages_per_room ∧
    c7msg 0 ∉ GetRecent (c7later.foldl Store (Store MessageStore.init (c7msg 0)))
      (c7msg 0).room
      (((c7later.foldl Store (Store MessageStore.init (c7msg 0))).room_messages
        (c7msg 0).room).length) := by
  decide

/-! ## Dispatcher (`server.cpp`)

Commands arrive as char lists (one trimmed chunk).  `std::istringstream`
extraction is embedded by `extractToken` / `extractInt` / `getlineRest`;
`extractInt` follows C++11 `num_get`: a parse with no digits writes `0`
(plus failbit), while a sentry failure (nothing but whitespace left, or a
stream already failed) leaves the variable untouched. -/

/-- Embeds `isspace` in the default locale, as used by stream extraction. -/
def isStreamSpace (c : Char) : Bool :=
  c == ' ' || c == '\t' || c == '\n' || c == '\r' ||
    c == Char.ofNat 11 || c == Char.ofNat 12

/-- Embeds `operator>>(std::string&)`: skip whitespace, take the maximal
non-whitespace token, return it with the remaining input (an empty token
means the extraction failed and the stream is in a failed state). -/
def extractToken (s : List Char) : List Char × List Char :=
  let s1 := s.dropWhile isStreamSpace
  (s1.takeWhile (fun c => !(isStreamSpace c)),
    s1.dropWhile (fun c => !(isStreamSpace c)))

/-- Outcome of `operator>>(int&)` under C++11 semantics. -/
inductive IntExtract where
  /-- sentry failure (only whitespace remains, or the stream had already
  failed): the target variable keeps its previous value. -/
  | noInput
  /-- sentry succeeded but `num_get` found no digits: the variable is set
  to `0` and failbit is raised. -/
  | failed
  /-- a successfully parsed value. -/
  | value (v : Int)
deriving DecidableEq

def parseDigits (ds : List Char) : Int :=
  ds.foldl (fun acc c => acc * 10 + (Int.ofNat c.toNat - 48)) 0

def extractInt (s : List Char) : IntExtract :=
  let s1 := s.dropWhile isStreamSpace
  match s1 with
  | [] => .noInput
  | c :: rest =>
    let signAndRest : Int × List Char :=
      if c = '-' then (-1, rest)
      else if c = '+' then (1, rest)
      else (1, s1)
    let digits := signAndRest.2.takeWhile (fun d => d.isDigit)
    if digits = [] then .failed
    else .value (signAndRest.1 * parseDigits digits)

/-- Embeds `std::getline` after extraction: the rest of the line up to a newline,
without whitespace skipping (empty at end of input). -/
def getlineRest (s : List Char) : List Char :=
  s.takeWhile (fun c => c != '\n')

/-- The dispatcher-level globals of `server.cpp`: `g_client_names` (an
association list in `unordered_map` iteration order), the connection
manager, the room manager and the message store. -/
structure ServerState where
  client_names : List (Int × String)
  connection_manager : ConnectionManager
  chat_rooms : ChatRoomManager
  message_store : MessageStore

/-- Embeds `GetClientName`: registered name or the `User#<id>` placeholder. -/
def GetClientName (names : List (Int × String)) (client_id : Int) : String :=
  match names.find? (fun p => p.1 == client_id) with
  | some p => p.2
  | none => "User#" ++ toString client_id

/-- Embeds `SetClientName` (`g_client_names[client_id] = name`). -/
def setAssoc (names : List (Int × String)) (client_id : Int) (name : String) :
    List (Int × String) :=
  if names.any (fun p => p.1 == client_id) then
    names.map (fun p => if p.1 == client_id then (p.1, name) else p)
  else names ++ [(client_id, name)]

/-- The linear scan for a display name used by `#whisper`/`#kick`/`#ban`/
`#mute`: first match in iteration order, `-1` when absent. -/
def findClientByName (names : List (Int × String)) (target_name : String) : Int :=
  match names.find? (fun p => p.2 == target_name) with
  | some p => p.1
  | none => -1

/-- Embeds `SendToClient`: empty replies are suppressed, a missing trailing
newline is appended.  The result is the list of `(client, line)` chunks
handed to the transport. -/
def sendToClient (client_id : Int) (message : List Char) :
    List (Int × List Char) :=
  if message = [] then []
  else if message.getLast? = some '\n' then [(client_id, message)]
  else [(client_id, message ++ ['\n'])]

/-- The `#whisper` branch of `ProcessCommand`: `rest` is the input after
the `#whisper` command token. -/
def whisperCommand (s : ServerState) (client_id : Int) (rest : List Char) :
    List (Int × List Char) :=
  let name := GetClientName s.client_names client_id
  let extracted := extractToken rest
  let target_name := extracted.1
  let private_msg := getlineRest extracted.2
  if target_name = [] ∨ private_msg = [] then
    sendToClient client_id "Usage: #whisper <username> <message>".toList
  else
    let target_id := findClientByName s.client_names (String.mk target_name)
    if target_id = -1 then
      sendToClient client_id ("User not found: ".toList ++ target_name)
    else
      sendToClient target_id
        ("[Whisper from ".toList ++ name.toList ++ "]:".toList ++ private_msg)
        ++ sendToClient client_id
        ("[Whisper to ".toList ++ target_name ++ "]:".toList ++ private_msg)

/-- Embeds `ChatMessage::ToString`, with the local-wall-clock rendering of
`GetTimestampString` abstracted as `fmt`. -/
def chatMessageLine (fmt : Int → List Char) (msg : ChatMessage) : List Char :=
  '[' :: fmt msg.timestamp ++ "] [#".toList ++ msg.room.toList ++
    "] ".toList ++ msg.sender_name.toList ++ ": ".toList ++ msg.content.toList

/-- The `#history` count: `int count = 10; iss >> count;` (C++11: a failed
parse writes `0`, a sentry failure leaves the initial `10`), then the two
clamps. -/
def historyCount (rest : List Char) : Int :=
  let parsed : Int :=
    match extractInt rest with
    | .noInput => 10
    | .failed => 0
    | .value v => v
  let clamped := if parsed < 1 then 10 else parsed
  if clamped > 50 then 50 else clamped

/-- The reply text of `#history`. -/
def historyReplyText (fmt : Int → List Char) (room : String)
    (messages : List ChatMessage) : List Char :=
  "Last ".toList ++ (toString messages.length).toList ++
    " messages in #".toList ++ room.toList ++ ":\n".toList ++
    (messages.map (fun msg => "  ".toList ++ chatMessageLine fmt msg ++ ['\n'])).flatten

/-- The `#history` branch of `ProcessCommand`. -/
def historyCommand (fmt : Int → List Char) (s : ServerState) (client_id : Int)
    (rest : List Char) : List (Int × List Char) :=
  let room := GetClientRoom s.chat_rooms client_id
  let messages := GetRecent s.message_store room (historyCount rest).toNat
  sendToClient client_id (historyReplyText fmt room messages)

/-- The `#mute` branch of `ProcessCommand`:
`int duration = 60; iss >> target_name >> duration;` (when the target
token is missing the chained extraction has already failed and `duration`
keeps `60`; likewise on a sentry failure after the token), then name
resolution, `Mute`, and the two notifications. -/
def muteCommand (s : ServerState) (client_id : Int) (rest : List Char)
    (now : Int) : List (Int × List Char) × ServerState :=
  let extracted := extractToken rest
  let target_name := extracted.1
  let duration : Int :=
    if target_name = [] then 60
    else
      match extractInt extracted.2 with
      | .noInput => 60
      | .failed => 0
      | .value v => v
  let target_id := findClientByName s.client_names (String.mk target_name)
  if target_id ≠ -1 then
    (sendToClient target_id ("You have been muted for ".toList ++
        (toString duration).toList ++ " seconds".toList)
      ++ sendToClient client_id ("Muted ".toList ++ target_name ++
        " for ".toList ++ (toString duration).toList ++ " seconds".toList),
      { s with connection_manager := Mute s.connection_manager target_id duration now })
  else
    (sendToClient client_id "User not found".toList, s)

/-- What `HandleMessage` decides after its early checks: drop (empty after
trim), an early textual reply (rate-limited / muted / name registration),
fall through to `ProcessCommand`, or fall through to `BroadcastToRoom`. -/
inductive Dispatch where
  | noAction
  | reply (sends : List (Int × List Char))
  | command (cmd : List Char)
  | chat (msg : List Char)
deriving DecidableEq

/-- The trailing `\n` / `\r` / `\0` trim loop of `HandleMessage`. -/
def trimMessage (msg : List Char) : List Char :=
  (msg.reverse.dropWhile
    (fun c => c == '\n' || c == '\r' || c == Char.ofNat 0)).reverse

/-- Embeds `HandleMessage` up to its dispatch decision, with the updated state.
The order of checks mirrors the source: trim; drop empty; `AllowMessage`
(whose muted branch yields the rate-limit reply); `RecordMessage`;
`IsMuted`; name registration for placeholder-named clients; command /
chat dispatch. -/
def handleMessage (s : ServerState) (client_id : Int) (message : List Char)
    (now : Int) : Dispatch × ServerState :=
  let msg := trimMessage message
  if msg = [] then (.noAction, s)
  else
    match AllowMessage s.connection_manager client_id now with
    | (false, conn1) =>
      (.reply (sendToClient client_id
          "You are sending too many messages. Please slow down.".toList),
        { s with connection_manager := conn1 })
    | (true, conn1) =>
      let conn2 := RecordMessage conn1 client_id now
      match IsMuted conn2 client_id now with
      | (true, conn3) =>
        (.reply (sendToClient client_id "You are muted.".toList),
          { s with connection_manager := conn3 })
      | (false, conn3) =>
        if GetClientName s.client_names client_id =
            "User#" ++ toString client_id ∧ msg.head? ≠ some '#' then
          let names1 := setAssoc s.client_names client_id (String.mk msg)
          let room := GetClientRoom s.chat_rooms client_id
          let join_msg := msg ++ " has joined #".toList ++ room.toList
          let sends := ((GetRoomMembers s.chat_rooms room).filter
            (fun m => m ≠ client_id)).flatMap (fun m => sendToClient m join_msg)
          (.reply sends,
            { s with connection_manager := conn3, client_names := names1 })
        else if msg.head? = some '#' then
          (.command msg, { s with connection_manager := conn3 })
        else (.chat msg, { s with connection_manager := conn3 })

/-- A two-client registry (`alice`, `bob`) over otherwise fresh state. -/
def twoClientState : ServerState :=
  { client_names := [(1, "alice"), (2, "bob")],
    connection_manager := ConnectionManager.init,
    chat_rooms := ChatRoomManager.init,
    message_store := MessageStore.init }

/-- The state for the C2 evidence: client 5 is registered as `bob` and
permanently muted. -/
def c2state : ServerState :=
  { client_names := [(5, "bob")],
    connection_manager := Mute ConnectionManager.init 5 0 0,
    chat_rooms := ChatRoomManager.init,
    message_store := MessageStore.init }

/-- Claim C2 (code-bug evidence): client 5 is muted, and its non-empty
trimmed message is indeed suppressed (early reply, store untouched), but
the reply is the rate-limit line, not `You are muted.`: `AllowMessage`
already returns `false` for muted clients, so `HandleMessage` takes the
rate-limit branch and the dedicated mute branch below it cannot run. -/
theorem c2_muted_reply_divergence :
    (IsMuted c2state.connection_manager 5 0).1 = true ∧
    (handleMessage c2state 5 "hello".toList 0).1 =
      Dispatch.reply
        [(5, "You are sending too many messages. Please slow down.\n".toList)] ∧
    (handleMessage c2state 5 "hello".toList 0).1 ≠
      Dispatch.reply [(5, "You are muted.\n".toList)] ∧
    (handleMessage c2state 5 "hello".toList 0).2.message_store =
      c2state.message_store := by
  refine ⟨by decide, by decide, by decide, rfl⟩

/-- Claim C3: `#mute <user>` with no seconds token applies the default 60
second mute: the chained `>>` into `duration` hits a sentry failure at end
of input, so `duration` keeps its initialised 60 and `Mute(target, 60)`
records a finite expiry — not the permanent `Mute(target, 0)` sentinel —
and the mute is over one millisecond past the expiry instant. -/
theorem c3_mute_default_sixty (s : ServerState) (client_id target_id now : Int)
    (rest target_name rest1 : List Char)
    (htok : extractToken rest = (target_name, rest1))
    (hne : target_name ≠ [])
    (hnosec : extractInt rest1 = IntExtract.noInput)
    (hfind : findClientByName s.client_names (String.mk target_name) = target_id)
    (hvalid : target_id ≠ -1) :
    (muteCommand s client_id rest now).2.connection_manager.muted_clients
        target_id = some (MuteTime.timeAt (now + 60 * 1000)) ∧
    (muteCommand s client_id rest now).2.connection_manager.muted_clients
        target_id ≠ some MuteTime.timeMax ∧
    (IsMuted (muteCommand s client_id rest now).2.connection_manager target_id
      (now + 60 * 1000 + 1)).1 = false := by
  have hstate : (muteCommand s client_id rest now).2 =
      { s with connection_manager := Mute s.connection_manager target_id 60 now } := by
    unfold muteCommand
    rw [htok]
    dsimp only
    rw [if_neg hne, hnosec]
    dsimp only
    rw [hfind, if_pos hvalid]
  have hmut : (muteCommand s client_id rest now).2.connection_manager.muted_clients
      target_id = some (MuteTime.timeAt (now + 60 * 1000)) := by
    rw [hstate]
    show (Mute s.connection_manager target_id 60 now).muted_clients target_id = _
    unfold Mute
    rw [if_neg (by decide)]
    exact setKey_same _ _ _
  refine ⟨hmut, ?_, ?_⟩
  · rw [hmut]
    simp
  · unfold IsMuted
    rw [hmut]
    dsimp only
    rw [if_pos (by omega)]

theorem c3_mute_default_sixty_witness :
    extractInt ([] : List Char) = IntExtract.noInput ∧
    ((muteCommand twoClientState 1 " bob".toList 0).2.connection_manager.muted_clients
        2 = some (MuteTime.timeAt (0 + 60 * 1000)) ∧
     (muteCommand twoClientState 1 " bob".toList 0).2.connection_manager.muted_clients
        2 ≠ some MuteTime.timeMax ∧
     (IsMuted (muteCommand twoClientState 1 " bob".toList 0).2.connection_manager 2
        (0 + 60 * 1000 + 1)).1 = false) :=
  ⟨rfl, c3_mute_default_sixty twoClientState 1 2 0 " bob".toList "bob".toList []
    (by decide) (by decide) rfl (by decide) (by decide)⟩

theorem getlineRest_no_newline (s : List Char) (h : getlineRest s ≠ []) :
    (getlineRest s).getLast? ≠ some '\n' := by
  intro hsome
  have hmem : '\n' ∈ getlineRest s := by
    rw [List.getLast?_eq_getLast_of_ne_nil h] at hsome
    exact (Option.some_inj.mp hsome) ▸ List.getLast_mem h
  unfold getlineRest at hmem
  have := List.mem_takeWhile_imp hmem
  simp at this

theorem sendToClient_append_newline (client_id : Int) (m : List Char)
    (hne : m ≠ []) (hnl : m.getLast? ≠ some '\n') :
    sendToClient client_id m = [(client_id, m ++ ['\n'])] := by
  unfold sendToClient
  rw [if_neg hne, if_neg hnl]

/-- Counterexample to claim C4 as stated: `#whisper bob hello there` from
`alice` delivers `[Whisper from alice]: hello there` — `std::getline`
keeps the separator space after the username token — not the claimed
`[Whisper from alice]:hello there` with no leading separator. -/
theorem c4_whisper_leading_space_counterexample :
    whisperCommand twoClientState 1 " bob hello there".toList =
      [(2, "[Whisper from alice]: hello there\n".toList),
       (1, "[Whisper to bob]: hello there\n".toList)] ∧
    whisperCommand twoClientState 1 " bob hello there".toList ≠
      [(2, "[Whisper from alice]:hello there\n".toList),
       (1, "[Whisper to bob]:hello there\n".toList)] := by
  refine ⟨by decide, by decide⟩

/-- Claim C4 (amended): for a resolvable target, `#whisper` sends exactly
one line `[Whisper from <sender>]:<text>\n` to the target and one line
`[Whisper to <user>]:<text>\n` back to the sender, and nothing to anyone
else — where `<text>` is the remainder of the line after the username
token *including* the leading whitespace separator (the source reads it
with `std::getline` straight after token extraction). -/
theorem c4_whisper_delivery (s : ServerState) (client_id target_id : Int)
    (rest target_name rest1 : List Char)
    (htok : extractToken rest = (target_name, rest1))
    (hne : target_name ≠ [])
    (hmsg : getlineRest rest1 ≠ [])
    (hfind : findClientByName s.client_names (String.mk target_name) = target_id)
    (hvalid : target_id ≠ -1) :
    whisperCommand s client_id rest =
      [(target_id, "[Whisper from ".toList ++
          (GetClientName s.client_names client_id).toList ++ "]:".toList ++
          getlineRest rest1 ++ ['\n']),
       (client_id, "[Whisper to ".toList ++ target_name ++ "]:".toList ++
          getlineRest rest1 ++ ['\n'])] := by
  have hnl := getlineRest_no_newline rest1 hmsg
  have hfrom_ne : "[Whisper from ".toList ++
      (GetClientName s.client_names client_id).toList ++ "]:".toList ++
      getlineRest rest1 ≠ [] :=
    List.append_ne_nil_of_right_ne_nil _ hmsg
  have hfrom_nl : ("[Whisper from ".toList ++
      (GetClientName s.client_names client_id).toList ++ "]:".toList ++
      getlineRest rest1).getLast? ≠ some '\n' := by
    rw [List.getLast?_append_of_ne_nil _ hmsg]
    exact hnl
  have hto_ne : "[Whisper to ".toList ++ target_name ++ "]:".toList ++
      getlineRest rest1 ≠ [] :=
    List.append_ne_nil_of_right_ne_nil _ hmsg
  have hto_nl : ("[Whisper to ".toList ++ target_name ++ "]:".toList ++
      getlineRest rest1).getLast? ≠ some '\n' := by
    rw [List.getLast?_append_of_ne_nil _ hmsg]
    exact hnl
  unfold whisperCommand
  rw [htok]
  dsimp only
  rw [if_neg (by push_neg; exact ⟨hne, hmsg⟩), hfind, if_neg hvalid,
    sendToClient_append_newline _ _ hfrom_ne hfrom_nl,
    sendToClient_append_newline _ _ hto_ne hto_nl]
  rfl

theorem c4_whisper_delivery_witness :
    getlineRest " hello there".toList ≠ [] ∧
    whisperCommand twoClientState 1 " bob hello there".toList =
      [(2, "[Whisper from ".toList ++
          (GetClientName twoClientState.client_names 1).toList ++ "]:".toList ++
          getlineRest " hello there".toList ++ ['\n']),
       (1, "[Whisper to ".toList ++ "bob".toList ++ "]:".toList ++
          getlineRest " hello there".toList ++ ['\n'])] :=
  ⟨by decide, c4_whisper_delivery twoClientState 1 2 " bob hello there".toList
    "bob".toList " hello there".toList (by decide) (by decide) (by decide)
    (by decide) (by decide)⟩

theorem getRecent_len_suffix (ms : MessageStore) (room : String) (n : Nat) :
    (GetRecent ms room n).length = min n (ms.room_messages room).length ∧
    GetRecent ms room n <:+ ms.room_messages room := by
  constructor
  · unfold GetRecent
    rw [List.length_drop]
    omega
  · exact List.drop_suffix _ _

/-- Claim C8: `#history [n]` clamps its count into `[1, 50]` with default
10 — a missing argument (sentry failure) keeps the initialised 10, an
unparsable argument is written as 0 and clamps to 10, anything below 1
clamps to 10, anything above 50 clamps to 50 — and the reply is built from
the last `min(count, |cache|)` messages of the sender's current room. -/
theorem c8_history_clamp (fmt : Int → List Char) (s : ServerState)
    (client_id : Int) (rest : List Char) :
    (1 ≤ historyCount rest ∧ historyCount rest ≤ 50) ∧
    (extractInt rest = IntExtract.noInput → historyCount rest = 10) ∧
    (extractInt rest = IntExtract.failed → historyCount rest = 10) ∧
    (∀ v, extractInt rest = IntExtract.value v → v < 1 → historyCount rest = 10) ∧
    (∀ v, extractInt rest = IntExtract.value v → 1 ≤ v → v ≤ 50 →
      historyCount rest = v) ∧
    (∀ v, extractInt rest = IntExtract.value v → 50 < v → historyCount rest = 50) ∧
    (historyCommand fmt s client_id rest =
      sendToClient client_id (historyReplyText fmt
        (GetClientRoom s.chat_rooms client_id)
        (GetRecent s.message_store (GetClientRoom s.chat_rooms client_id)
          (historyCount rest).toNat))) ∧
    ((GetRecent s.message_store (GetClientRoom s.chat_rooms client_id)
        (historyCount rest).toNat).length =
      min (historyCount rest).toNat
        (s.message_store.room_messages
          (GetClientRoom s.chat_rooms client_id)).length ∧
     GetRecent s.message_store (GetClientRoom s.chat_rooms client_id)
        (historyCount rest).toNat <:+
      s.message_store.room_messages (GetClientRoom s.chat_rooms client_id)) := by
  refine ⟨?_, ?_, ?_, ?_, ?_, ?_, rfl, getRecent_len_suffix _ _ _⟩
  · unfold historyCount
    rcases extractInt rest with _ | _ | v <;> dsimp only <;> split_ifs <;> omega
  · intro h
    unfold historyCount
    rw [h]
    decide
  · intro h
    unfold historyCount
    rw [h]
    decide
  · intro v h hv
    unfold historyCount
    rw [h]
    dsimp only
    rw [if_pos hv]
    decide
  · intro v h hv1 hv2
    unfold historyCount
    rw [h]
    dsimp only
    rw [if_neg (by omega), if_neg (by omega)]
  · intro v h hv
    unfold historyCount
    rw [h]
    dsimp only
    rw [if_neg (show ¬ v < 1 by omega)]
    rw [if_pos hv]

theorem c8_history_clamp_witness :
    extractInt " 999".toList = IntExtract.value 999 ∧
    historyCount " 999".toList = 50 :=
  ⟨by decide,
    (c8_history_clamp (fun _ => []) twoClientState 1 " 999".toList).2.2.2.2.2.1
      999 (by decide) (by decide)⟩
